import Mathlib

set_option maxHeartbeats 4000000

/-!
Verification development for the cdk-diff-action repository.

The definitions below are a shallow embedding of the destructive-change
classifier (StackDiff.evaluateDiff in src/diff.ts), the stage orchestration
(AssemblyProcessor / StageProcessor in src/stage-processor.ts) and the
comment publishing logic, translated from the TypeScript source.  External
collaborators (the cloudformation-diff engine, the GitHub comment store)
are modelled at their interface boundary: a template diff is a collection
of per-resource differences, and the comment store is represented by a
lookup oracle together with a trace of store actions.
-/

/-- Impact classification reported by the external diff engine for one
resource difference (enum ResourceImpact of aws-cdk cloudformation-diff). -/
inductive ResourceImpact where
  | WILL_UPDATE
  | WILL_CREATE
  | WILL_REPLACE
  | MAY_REPLACE
  | WILL_DESTROY
  | WILL_ORPHAN
  | WILL_IMPORT
  | NO_CHANGE
deriving DecidableEq

/-- A CloudFormation resource as seen by the diff engine.  The Type field
may be absent on malformed diff entries, hence an Option. -/
structure Resource where
  type : Option String
deriving DecidableEq

/-- One per-resource difference produced by the external diff engine.
oldValue and newValue are the resource before and after the change;
propertyUpdates is the list of keys of the property-level differences
(Object.keys of the propertyUpdates record); changeImpact is the nominal
impact the engine reports. -/
structure ResourceDifference where
  oldValue : Option Resource
  newValue : Option Resource
  propertyUpdates : List String
  changeImpact : ResourceImpact
deriving DecidableEq

/-- isAddition of cloudformation-diff: the old value is absent. -/
def ResourceDifference.isAddition (c : ResourceDifference) : Bool :=
  c.oldValue.isNone

/-- isRemoval of cloudformation-diff: the new value is absent. -/
def ResourceDifference.isRemoval (c : ResourceDifference) : Bool :=
  c.newValue.isNone

/-- isUpdate of cloudformation-diff: both values are present. -/
def ResourceDifference.isUpdate (c : ResourceDifference) : Bool :=
  c.oldValue.isSome && c.newValue.isSome

/-- Resolution of the resource type in evaluateDiff:
change.oldValue?.Type ?? change.newValue?.Type. -/
def ResourceDifference.resourceType (c : ResourceDifference) : Option String :=
  match c.oldValue.bind Resource.type with
  | some t => some t
  | none => c.newValue.bind Resource.type

/-- One entry of the destructive change list (interface DestructiveChange
in src/diff.ts). -/
structure DestructiveChange where
  logicalId : String
  stackName : String
  impact : ResourceImpact
deriving DecidableEq

/-- Aggregate classification result (interface ChangeDetails in
src/diff.ts). -/
structure ChangeDetails where
  updatedResources : Nat
  removedResources : Nat
  createdResources : Nat
  destructiveChanges : List DestructiveChange
deriving DecidableEq

/-- The counting part of the loop body of evaluateDiff: classify the
difference into exactly one of updated, removed or created based on the
isUpdate, isRemoval and isAddition flags, in that order. -/
def countStep (c : ResourceDifference) (acc : ChangeDetails) : ChangeDetails :=
  if c.isUpdate then
    { acc with updatedResources := acc.updatedResources + 1 }
  else if c.isRemoval then
    { acc with removedResources := acc.removedResources + 1 }
  else if c.isAddition then
    { acc with createdResources := acc.createdResources + 1 }
  else acc

/-- The destructive-change part of the loop body of evaluateDiff: a
removal is recorded with impact WILL_DESTROY; otherwise the difference is
recorded exactly when the engine reports MAY_REPLACE, WILL_ORPHAN,
WILL_DESTROY or WILL_REPLACE, with that impact. -/
def destructiveStep (templateId logicalId : String) (c : ResourceDifference)
    (acc : ChangeDetails) : ChangeDetails :=
  if c.isRemoval then
    { acc with destructiveChanges :=
        acc.destructiveChanges ++ [⟨logicalId, templateId, ResourceImpact.WILL_DESTROY⟩] }
  else
    match c.changeImpact with
    | ResourceImpact.MAY_REPLACE
    | ResourceImpact.WILL_ORPHAN
    | ResourceImpact.WILL_DESTROY
    | ResourceImpact.WILL_REPLACE =>
      { acc with destructiveChanges :=
          acc.destructiveChanges ++ [⟨logicalId, templateId, c.changeImpact⟩] }
    | _ => acc

/-- The noise test applied to AWS Lambda Function differences in
evaluateDiff: (keys.length <= 2 && keys.includes(Code)) ||
keys.includes(Metadata).  Note the operator precedence of the source:
the Metadata membership test alone suffices. -/
def lambdaArtifactOnly (c : ResourceDifference) : Bool :=
  (decide (c.propertyUpdates.length ≤ 2) && c.propertyUpdates.contains "Code")
    || c.propertyUpdates.contains "Metadata"

/-- The allow-list test of evaluateDiff: resourceType &&
allowedDestroyTypes.includes(resourceType).  An unresolved type never
matches. -/
def allowedTypeTest (allowed : List String) (c : ResourceDifference) : Bool :=
  match c.resourceType with
  | some t => allowed.contains t
  | none => false

/-- The loop body of StackDiff.evaluateDiff for a single resource
difference: skip AWS CDK Metadata resources entirely, skip Lambda
functions whose property diff is an artifact-only change, then count the
difference, and unless the resolved type is allow-listed record any
destructive change. -/
def evalStep (allowed : List String) (templateId logicalId : String)
    (c : ResourceDifference) (acc : ChangeDetails) : ChangeDetails :=
  if c.resourceType = some "AWS::CDK::Metadata" then acc
  else if c.resourceType = some "AWS::Lambda::Function" ∧ lambdaArtifactOnly c = true then acc
  else
    let acc2 := countStep c acc
    if allowedTypeTest allowed c = true then acc2
    else destructiveStep templateId logicalId c acc2

/-- StackDiff.evaluateDiff: fold the loop body over all resource
differences of the template diff, starting from the all-zero result. -/
def evaluateDiff (allowed : List String) (templateId : String)
    (resources : List (String × ResourceDifference)) : ChangeDetails :=
  resources.foldl (fun acc p => evalStep allowed templateId p.1 p.2 acc)
    ⟨0, 0, 0, []⟩

/-- Interface model of a template diff: the collection of per-resource
differences, keyed by logical id, in iteration order. -/
structure TemplateDiff where
  resources : List (String × ResourceDifference)
deriving DecidableEq

/-- isEmpty of the diff object: no differences at all. -/
def TemplateDiff.isEmpty (d : TemplateDiff) : Bool :=
  d.resources.isEmpty

/-- Lower-case hexadecimal digit, as produced by JavaScript number
formatting with radix 16. -/
def hexDigitChar (n : Nat) : Char :=
  if n = 0 then '0' else if n = 1 then '1' else if n = 2 then '2'
  else if n = 3 then '3' else if n = 4 then '4' else if n = 5 then '5'
  else if n = 6 then '6' else if n = 7 then '7' else if n = 8 then '8'
  else if n = 9 then '9' else if n = 10 then 'a' else if n = 11 then 'b'
  else if n = 12 then 'c' else if n = 13 then 'd' else if n = 14 then 'e'
  else 'f'

/-- The escape applied by JSON.stringify to one character of a string
value: quote and backslash are backslash-escaped, the named control
characters get their short escapes, the remaining control characters
become a \u00XX escape, and everything else is emitted verbatim. -/
def jsonEscapeChar (c : Char) : List Char :=
  if c = '"' then ['\\', '"']
  else if c = '\\' then ['\\', '\\']
  else if c = Char.ofNat 8 then ['\\', 'b']
  else if c = Char.ofNat 9 then ['\\', 't']
  else if c = Char.ofNat 10 then ['\\', 'n']
  else if c = Char.ofNat 12 then ['\\', 'f']
  else if c = Char.ofNat 13 then ['\\', 'r']
  else if c.toNat < 32 then
    ['\\', 'u', '0', '0', hexDigitChar (c.toNat / 16), hexDigitChar (c.toNat % 16)]
  else [c]

/-- JSON.stringify escaping of a whole string, character by character. -/
def jsonEscape (s : List Char) : List Char :=
  s.flatMap jsonEscapeChar

/-- JSON.stringify of a string value: the escaped characters between
double quotes. -/
def jsonString (s : String) : String :=
  "\"" ++ String.mk (jsonEscape s.data) ++ "\""

/-- The JSON document hashed into the stage fingerprint by
AssemblyProcessor.stageDiffInfo:
JSON.stringify(\x7b stageName, title, stacks: [\x7b name \x7d ...] \x7d).
The title key is omitted when the configured title is undefined, exactly
as JSON.stringify drops undefined-valued keys, and each member stack
contributes only its name. -/
def jsonStacksArray : List String → String
  | [] => ""
  | [n] => "\x7b\"name\":" ++ jsonString n ++ "\x7d"
  | n :: m :: rest =>
      "\x7b\"name\":" ++ jsonString n ++ "\x7d" ++ ","
        ++ jsonStacksArray (m :: rest)

/-- The whole topology document of the stage fingerprint; see the doc
comment of jsonStacksArray above for the shape. -/
def stageHashJson (stageName : String) (title : Option String)
    (stackNames : List String) : String :=
  "\x7b\"stageName\":" ++ jsonString stageName
    ++ (match title with
        | some t => ",\"title\":" ++ jsonString t
        | none => "")
    ++ ",\"stacks\":["
    ++ jsonStacksArray stackNames
    ++ "]\x7d"

/-- The JSON document hashed into the per-stack fingerprint used by the
per-stack fallback publisher: JSON.stringify(\x7b stageName, stackName \x7d). -/
def stackHashJson (stageName stackName : String) : String :=
  "\x7b\"stageName\":" ++ jsonString stageName
    ++ ",\"stackName\":" ++ jsonString stackName ++ "\x7d"

/-- Reduction of a natural number to 32 bits. -/
def m32 (n : Nat) : Nat := n % 4294967296

/-- 32-bit left rotation. -/
def rotl32 (x s : Nat) : Nat :=
  m32 (x <<< s) ||| (x >>> (32 - s))

/-- The 64 MD5 sine-derived round constants. -/
def md5k : List Nat :=
  [0xd76aa478, 0xe8c7b756, 0x242070db, 0xc1bdceee,
   0xf57c0faf, 0x4787c62a, 0xa8304613, 0xfd469501,
   0x698098d8, 0x8b44f7af, 0xffff5bb1, 0x895cd7be,
   0x6b901122, 0xfd987193, 0xa679438e, 0x49b40821,
   0xf61e2562, 0xc040b340, 0x265e5a51, 0xe9b6c7aa,
   0xd62f105d, 0x02441453, 0xd8a1e681, 0xe7d3fbc8,
   0x21e1cde6, 0xc33707d6, 0xf4d50d87, 0x455a14ed,
   0xa9e3e905, 0xfcefa3f8, 0x676f02d9, 0x8d2a4c8a,
   0xfffa3942, 0x8771f681, 0x6d9d6122, 0xfde5380c,
   0xa4beea44, 0x4bdecfa9, 0xf6bb4b60, 0xbebfbc70,
   0x289b7ec6, 0xeaa127fa, 0xd4ef3085, 0x04881d05,
   0xd9d4d039, 0xe6db99e5, 0x1fa27cf8, 0xc4ac5665,
   0xf4292244, 0x432aff97, 0xab9423a7, 0xfc93a039,
   0x655b59c3, 0x8f0ccc92, 0xffeff47d, 0x85845dd1,
   0x6fa87e4f, 0xfe2ce6e0, 0xa3014314, 0x4e0811a1,
   0xf7537e82, 0xbd3af235, 0x2ad7d2bb, 0xeb86d391]

/-- The MD5 per-round left-rotation amounts. -/
def md5s : List Nat :=
  [7, 12, 17, 22, 7, 12, 17, 22, 7, 12, 17, 22, 7, 12, 17, 22,
   5, 9, 14, 20, 5, 9, 14, 20, 5, 9, 14, 20, 5, 9, 14, 20,
   4, 11, 16, 23, 4, 11, 16, 23, 4, 11, 16, 23, 4, 11, 16, 23,
   6, 10, 15, 21, 6, 10, 15, 21, 6, 10, 15, 21, 6, 10, 15, 21]

/-- The MD5 nonlinear mixing function for round i. -/
def md5f (i b c d : Nat) : Nat :=
  if i < 16 then (b &&& c) ||| ((4294967295 ^^^ b) &&& d)
  else if i < 32 then (d &&& b) ||| ((4294967295 ^^^ d) &&& c)
  else if i < 48 then b ^^^ c ^^^ d
  else c ^^^ (b ||| (4294967295 ^^^ d))

/-- The MD5 message-word index for round i. -/
def md5g (i : Nat) : Nat :=
  if i < 16 then i
  else if i < 32 then (5 * i + 1) % 16
  else if i < 48 then (3 * i + 5) % 16
  else (7 * i) % 16

/-- Little-endian byte decomposition of a number into the given number of
bytes. -/
def toLEBytes : Nat → Nat → List Nat
  | 0, _ => []
  | b + 1, n => (n % 256) :: toLEBytes b (n / 256)

/-- Little-endian recomposition of a list of bytes into a number. -/
def leWord (bs : List Nat) : Nat :=
  bs.foldr (fun b acc => acc * 256 + b) 0

/-- MD5 padding: append 0x80, zero-pad to 56 mod 64 bytes and append the
original bit length as a 64-bit little-endian quantity. -/
def md5pad (msg : List Nat) : List Nat :=
  let len := msg.length
  let zeros := (120 - (len + 1) % 64) % 64
  msg ++ [0x80] ++ List.replicate zeros 0
    ++ toLEBytes 8 ((len * 8) % 18446744073709551616)

/-- Split a byte list into 64-byte chunks. -/
def md5chunks (l : List Nat) : List (List Nat) :=
  if h : l = [] then []
  else l.take 64 :: md5chunks (l.drop 64)
termination_by l.length
decreasing_by
  simp only [List.length_drop]
  have : 0 < l.length := List.length_pos.mpr h
  omega

/-- Internal MD5 state of four 32-bit words. -/
structure MD5State where
  a : Nat
  b : Nat
  c : Nat
  d : Nat
deriving DecidableEq

/-- One MD5 round applied to the state, reading message word x. -/
def md5round (x : Nat → Nat) (st : MD5State) (i : Nat) : MD5State :=
  let f := m32 (md5f i st.b st.c st.d + st.a + md5k.getD i 0 + x (md5g i))
  ⟨st.d, m32 (st.b + rotl32 f (md5s.getD i 0)), st.b, st.c⟩

/-- Processing of one 64-byte chunk: 64 rounds followed by the feed
forward addition. -/
def md5chunkStep (st : MD5State) (chunk : List Nat) : MD5State :=
  let x := fun j => leWord ((chunk.drop (4 * j)).take 4)
  let r := (List.range 64).foldl (md5round x) st
  ⟨m32 (st.a + r.a), m32 (st.b + r.b), m32 (st.c + r.c), m32 (st.d + r.d)⟩

/-- MD5 digest of a byte sequence, as the 16 digest bytes. -/
def md5bytes (msg : List Nat) : List Nat :=
  let st := (md5chunks (md5pad msg)).foldl md5chunkStep
    ⟨0x67452301, 0xefcdab89, 0x98badcfe, 0x10325476⟩
  toLEBytes 4 st.a ++ toLEBytes 4 st.b ++ toLEBytes 4 st.c ++ toLEBytes 4 st.d

/-- Lower-case hexadecimal rendering of one byte. -/
def byteToHex (b : Nat) : String :=
  String.mk [hexDigitChar (b / 16), hexDigitChar (b % 16)]

/-- The md5Hash helper of stage-processor.ts:
crypto.createHash(md5).update(val).digest(hex) over the UTF-8 bytes of
the input string. -/
def md5Hash (s : String) : String :=
  String.join ((md5bytes (s.toUTF8.toList.map (fun b => b.toNat))).map byteToHex)

/-- The stage fingerprint computed in AssemblyProcessor.stageDiffInfo:
the MD5 of the topology document built from the stage name, the optional
configured title and the member stack names. -/
def stageFingerprint (stageName : String) (title : Option String)
    (stackNames : List String) : String :=
  md5Hash (stageHashJson stageName title stackNames)

/-- The string value of a ResourceImpact member, as interpolated into
comment text (the TypeScript enum is a string enum). -/
def ResourceImpact.text : ResourceImpact → String
  | ResourceImpact.WILL_UPDATE => "WILL_UPDATE"
  | ResourceImpact.WILL_CREATE => "WILL_CREATE"
  | ResourceImpact.WILL_REPLACE => "WILL_REPLACE"
  | ResourceImpact.MAY_REPLACE => "MAY_REPLACE"
  | ResourceImpact.WILL_DESTROY => "WILL_DESTROY"
  | ResourceImpact.WILL_ORPHAN => "WILL_ORPHAN"
  | ResourceImpact.WILL_IMPORT => "WILL_IMPORT"
  | ResourceImpact.NO_CHANGE => "NO_CHANGE"

/-- AssemblyProcessor.getEmoji: severity emoji chosen from the
classification, by precedence destructive-or-removed, updated, created,
quiet. -/
def getEmoji (changes : ChangeDetails) : String :=
  if changes.destructiveChanges.length ≠ 0 ∨ changes.removedResources ≠ 0 then ":x:"
  else if changes.updatedResources ≠ 0 then ":yellow_circle:"
  else if changes.createdResources ≠ 0 then ":sparkle:"
  else ":white_check_mark:"

/-- AssemblyProcessor.formatStackComment.  The external diff formatter
(formatDifferences writing into the string buffer) is passed in as fmt.
An empty diff short-circuits to the single no-changes line; otherwise a
header with the three counts, a details block with the destructive
warning sub-block when applicable, and the verbatim formatter output in
a fenced code block. -/
def formatStackComment (fmt : TemplateDiff → String) (stackName : String)
    (diff : TemplateDiff) (changes : ChangeDetails) : List String :=
  let emoji := getEmoji changes
  if diff.isEmpty then
    ["No Changes for stack: " ++ stackName ++ " " ++ emoji]
  else
    ["#### Diff for stack: " ++ stackName ++ " - ***"
        ++ toString changes.createdResources ++ " to add, "
        ++ toString changes.updatedResources ++ " to update, "
        ++ toString changes.removedResources ++ " to destroy***  " ++ emoji,
     "<details><summary>Details</summary>",
     ""]
    ++ (if changes.destructiveChanges.length ≠ 0 then
          ["", "> [!WARNING]\n> ***Destructive Changes*** :bangbang:"]
          ++ changes.destructiveChanges.flatMap (fun ch =>
              ["> **Stack: " ++ ch.stackName ++ " - Resource: " ++ ch.logicalId
                  ++ " - Impact:** ***" ++ ch.impact.text ++ "***", ""])
        else [])
    ++ ["", "```shell", fmt diff, "```", "</details>", ""]

/-- Static stack description from the assembly manifest.  Only the name
takes part in fingerprints; content stands for the synthesized template
body and the other per-stack data that the fingerprint deliberately
excludes. -/
structure StackInfo where
  name : String
  content : String
deriving DecidableEq

/-- Static stage description: a named group of stacks. -/
structure StageInfo where
  name : String
  «stacks» : List StackInfo
deriving DecidableEq

/-- A stack together with its computed template diff
(interface StackDiffInfo of src/diff.ts). -/
structure StackDiffInfo where
  stackName : String
  diff : TemplateDiff
deriving DecidableEq

/-- A stage with the diffs of its stacks
(interface StageDiffInfo of src/diff.ts). -/
structure StageDiffInfo where
  name : String
  «stacks» : List StackDiffInfo
deriving DecidableEq

/-- The in-memory record AssemblyProcessor keeps per stage (interface
StageComment of stage-processor.ts): the per-stack comment lines, the
configured title, the fingerprint hash and the accumulated destructive
change count. -/
structure StageCommentV1 where
  stackComments : List (String × List String)
  title : Option String
  hash : String
  destructiveChanges : Nat
deriving DecidableEq

/-- Update of the first association-list entry with the given key, the
model of an assignment to an existing key of a JavaScript object. -/
def updateAssoc {β : Type} (k : String) (f : β → β) :
    List (String × β) → List (String × β)
  | [] => []
  | (k2, v) :: rest =>
      if k2 = k then (k2, f v) :: rest else (k2, v) :: updateAssoc k f rest

/-- The fingerprint of one stage record as the source computes it: the
MD5 of the topology document built from the stage name, the title and
the names (only) of the member stacks. -/
def stageHash (title : Option String) (stage : StageInfo) : String :=
  stageFingerprint stage.name title (stage.stacks.map StackInfo.name)

/-- The stageComments records created by the stageDiffInfo getter before
processing: empty comment lists per stack, zero destructive changes, and
the topology fingerprint.  Stage names are assumed distinct, matching the
object keying of the source. -/
def initStageComments (title : Option String) (stages : List StageInfo) :
    List (String × StageCommentV1) :=
  stages.map (fun st =>
    (st.name,
      { stackComments := st.stacks.map (fun s => (s.name, []))
        title := title
        hash := stageHash title st
        destructiveChanges := 0 }))

/-- The StageDiffInfo list built by the stageDiffInfo getter: every stack
paired with its template diff from the diff map. -/
def stageDiffInfoOf (diffs : String → TemplateDiff) (stages : List StageInfo) :
    List StageDiffInfo :=
  stages.map (fun st => ⟨st.name, st.stacks.map (fun s => ⟨s.name, diffs s.name⟩)⟩)

/-- AssemblyProcessor.diffStack: classify the diff of one stack and render
its comment; the returned count is the number of destructive changes. -/
def diffStackOne (fmt : TemplateDiff → String) (allowed : List String)
    (s : StackDiffInfo) : List String × Nat :=
  let changes := evaluateDiff allowed s.stackName s.diff.resources
  (formatStackComment fmt s.stackName s.diff changes,
   changes.destructiveChanges.length)

/-- One iteration of the processStages loop body: push the rendered stack
comment onto the stack entry of the stage record and, unless the stage is
in the ignore list, add the destructive count. -/
def processStack (fmt : TemplateDiff → String) (allowed : List String)
    (ignore : List String) (stageName : String) (s : StackDiffInfo)
    (m : List (String × StageCommentV1)) : List (String × StageCommentV1) :=
  let r := diffStackOne fmt allowed s
  updateAssoc stageName (fun sc =>
    { sc with
        stackComments := updateAssoc s.stackName (fun cs => cs ++ r.1) sc.stackComments
        destructiveChanges :=
          if ignore.contains stageName then sc.destructiveChanges
          else sc.destructiveChanges + r.2 }) m

/-- AssemblyProcessor.processStages: starting from the freshly initialized
stage records, process every stack of every stage in order. -/
def processStages (fmt : TemplateDiff → String) (allowed : List String)
    (title : Option String) (diffs : String → TemplateDiff)
    (stages : List StageInfo) (ignore : List String) :
    List (String × StageCommentV1) :=
  (stageDiffInfoOf diffs stages).foldl
    (fun m stg => stg.stacks.foldl
      (fun m2 s => processStack fmt allowed ignore stg.name s m2) m)
    (initStageComments title stages)

/-- AssemblyProcessor.hasDestructiveChanges: true iff some stage record
holds a nonzero destructive count. -/
def hasDestructiveChanges (m : List (String × StageCommentV1)) : Bool :=
  m.any (fun p => p.2.destructiveChanges ≠ 0)

/-- The per-stage record of the older AssemblyProcessor revision whose
publisher is specified here: per-stack comment lines, fingerprint hash
and destructive count (no title). -/
structure StageCommentV2 where
  stackComments : List (String × List String)
  hash : String
  destructiveChanges : Nat
deriving DecidableEq

/-- An action issued against the comment store, in order. -/
inductive CommentAction where
  | create (hash : String) (body : List String)
  | update (id : Nat) (hash : String) (body : List String)
  | delete (id : Nat)
deriving DecidableEq

/-- The maximum comment length allowed by GitHub. -/
def MAX_COMMENT_LENGTH : Nat := 65536

/-- Array.prototype.join with a newline separator. -/
def joinNL (lines : List String) : String :=
  match lines with
  | [] => ""
  | x :: xs => xs.foldl (fun acc l => acc ++ "\n" ++ l) x

/-- getCommentForStack of the older revision: empty input renders empty,
otherwise the per-stack heading followed by the stack comment lines. -/
def getCommentForStackV2 (stageName stackName : String)
    (comment : List String) : List String :=
  if comment.isEmpty then []
  else ("### Diff for stack: " ++ stageName ++ " / " ++ stackName) :: comment

/-- getCommentForStage of the older revision: empty when no stack
produced lines, otherwise the stage heading, the stage-level destructive
warning when the count is nonzero, and all stack comment lines. -/
def getCommentForStageV2 (stageName : String) (sc : StageCommentV2) :
    List String :=
  let comments := (sc.stackComments.map Prod.snd).flatten
  if comments.isEmpty then []
  else
    ["### Diff for stage: " ++ stageName]
    ++ (if sc.destructiveChanges ≠ 0 then
          ["> [!WARNING]\n> " ++ toString sc.destructiveChanges
              ++ " Destructive Changes", ""]
        else [])
    ++ comments

/-- The body of the per-stack loop of commentStacks: build the per-stack
fingerprint and comment, fail hard when even the single stack comment
exceeds the limit, otherwise update the previous comment found by
fingerprint or create a new one. -/
def commentOneStack (oracle : String → Option Nat) (stageName stackName : String)
    (comment : List String) : Except String CommentAction :=
  if MAX_COMMENT_LENGTH < (joinNL (getCommentForStackV2 stageName stackName comment)).length then
    Except.error ("Comment for stack " ++ stackName
      ++ " is too long, please report this as a bug https://github.com/corymhall/cdk-diff-action/issues/new")
  else
    match oracle (md5Hash (stackHashJson stageName stackName)) with
    | some id => Except.ok (CommentAction.update id
        (md5Hash (stackHashJson stageName stackName))
        (getCommentForStackV2 stageName stackName comment))
    | none => Except.ok (CommentAction.create
        (md5Hash (stackHashJson stageName stackName))
        (getCommentForStackV2 stageName stackName comment))

/-- The inner loop of commentStacks over the stacks of one stage. -/
def commentStacksLoop (oracle : String → Option Nat) (stageName : String) :
    List (String × List String) → Except String (List CommentAction)
  | [] => Except.ok []
  | (stackName, comment) :: rest =>
    match commentOneStack oracle stageName stackName comment with
    | Except.error e => Except.error e
    | Except.ok a =>
      match commentStacksLoop oracle stageName rest with
      | Except.error e => Except.error e
      | Except.ok as2 => Except.ok (a :: as2)

/-- commentStacks of the older revision: iterate over ALL stage records
and every stack of each, publishing one comment per stack. -/
def commentStacksAll (oracle : String → Option Nat) :
    List (String × StageCommentV2) → Except String (List CommentAction)
  | [] => Except.ok []
  | (stageName, sc) :: rest =>
    match commentStacksLoop oracle stageName sc.stackComments with
    | Except.error e => Except.error e
    | Except.ok as1 =>
      match commentStacksAll oracle rest with
      | Except.error e => Except.error e
      | Except.ok as2 => Except.ok (as1 ++ as2)

/-- commentStage: update the previous comment found by fingerprint or
create a new one. -/
def commentStageAction (oracle : String → Option Nat) (hash : String)
    (comment : List String) : CommentAction :=
  match oracle hash with
  | some id => CommentAction.update id hash comment
  | none => CommentAction.create hash comment

/-- The loop of commentStages of the older revision: for each stage
record, render the aggregate stage comment; when its joined length
exceeds the GitHub limit fall back to commentStacks over the WHOLE
stageComments map, otherwise publish the single aggregate comment. -/
def commentStagesLoop (oracle : String → Option Nat)
    (all : List (String × StageCommentV2)) :
    List (String × StageCommentV2) → Except String (List CommentAction)
  | [] => Except.ok []
  | (stageName, sc) :: rest =>
    match (if MAX_COMMENT_LENGTH < (joinNL (getCommentForStageV2 stageName sc)).length then
            commentStacksAll oracle all
          else
            Except.ok [commentStageAction oracle sc.hash
              (getCommentForStageV2 stageName sc)]) with
    | Except.error e => Except.error e
    | Except.ok as1 =>
      match commentStagesLoop oracle all rest with
      | Except.error e => Except.error e
      | Except.ok as2 => Except.ok (as1 ++ as2)

/-- commentStages of the older revision (the publisher with the length
based fallback). -/
def commentStages (oracle : String → Option Nat)
    (all : List (String × StageCommentV2)) : Except String (List CommentAction) :=
  commentStagesLoop oracle all all

/-- commentStage of the StageProcessor revision that deletes stale
comments: when the total change count is zero, delete the previous
comment if one exists and post nothing; otherwise update in place or
create. -/
def commentStageTotal (oracle : String → Option Nat) (hash : String)
    (comment : List String) (totalChanges : Nat) : List CommentAction :=
  let previous := oracle hash
  if totalChanges = 0 then
    match previous with
    | some id => [CommentAction.delete id]
    | none => []
  else
    match previous with
    | some id => [CommentAction.update id hash comment]
    | none => [CommentAction.create hash comment]

/-- Divided fetch failure modes of the GetTemplate call in
StackDiff.diffStack. -/
inductive FetchError where
  | stackNotFound
  | other (msg : String)
deriving DecidableEq

/-- The existing template computed by StackDiff.diffStack: initialized to
the empty template, replaced by the parsed template body on a successful
fetch with a body; every fetch error is swallowed by the catch block and
leaves the empty template in place (the StackNotFoundException arm
assigns the empty template again; any other error falls through the if
without rethrowing), and a parse failure inside the try block is likewise
caught. -/
def fetchedTemplate {T : Type} (emptyT : T) (parse : String → Option T)
    (res : Except FetchError (Option String)) : T :=
  match res with
  | Except.error _ => emptyT
  | Except.ok none => emptyT
  | Except.ok (some body) =>
    match parse body with
    | some t => t
    | none => emptyT

/-- StackDiff.diffStack over the interface model: compute the existing
template from the fetch outcome, hand both templates to the external
diffTemplate collaborator dT, and classify the resulting diff. -/
def diffStackFetch {T : Type} (emptyT : T) (parse : String → Option T)
    (dT : T → T → TemplateDiff) (allowed : List String) (stackName : String)
    (content : T) (res : Except FetchError (Option String)) :
    TemplateDiff × ChangeDetails :=
  let existingTemplate := fetchedTemplate emptyT parse res
  let diff := dT existingTemplate content
  (diff, evaluateDiff allowed stackName diff.resources)




/-! ## Helper lemmas about the classifier loop body -/

theorem countStep_destructive (c : ResourceDifference) (acc : ChangeDetails) :
    (countStep c acc).destructiveChanges = acc.destructiveChanges := by
  unfold countStep
  split_ifs <;> rfl

theorem countStep_one (c : ResourceDifference) (acc : ChangeDetails) :
    countStep c acc = { acc with updatedResources := acc.updatedResources + 1 }
    ∨ countStep c acc = { acc with removedResources := acc.removedResources + 1 }
    ∨ countStep c acc = { acc with createdResources := acc.createdResources + 1 } := by
  rcases c with ⟨o, n, p, i⟩
  cases o <;> cases n <;>
    simp [countStep, ResourceDifference.isUpdate, ResourceDifference.isRemoval,
      ResourceDifference.isAddition]

theorem lambdaArtifactOnly_iff (c : ResourceDifference) :
    lambdaArtifactOnly c = true ↔
      ((c.propertyUpdates.length ≤ 2 ∧ c.propertyUpdates.contains "Code" = true)
        ∨ c.propertyUpdates.contains "Metadata" = true) := by
  simp [lambdaArtifactOnly, Bool.or_eq_true, Bool.and_eq_true, decide_eq_true_eq]

/-! ## C1 -/

/-- C1 counterexample: the claim asserts that every difference whose
resolved resource type is allow-listed is still counted in exactly one
of the created, updated and removed totals.  For a removal of an AWS CDK
Metadata resource whose type is allow-listed, the metadata skip rule
fires first and the difference is counted in none of the three totals:
all counts stay zero. -/
theorem c1_counterexample :
    (⟨some ⟨some "AWS::CDK::Metadata"⟩, none, [],
        ResourceImpact.NO_CHANGE⟩ : ResourceDifference).resourceType
      = some "AWS::CDK::Metadata"
    ∧ ["AWS::CDK::Metadata"].contains "AWS::CDK::Metadata" = true
    ∧ (⟨some ⟨some "AWS::CDK::Metadata"⟩, none, [],
        ResourceImpact.NO_CHANGE⟩ : ResourceDifference).isRemoval = true
    ∧ evaluateDiff ["AWS::CDK::Metadata"] "S"
        [("M", ⟨some ⟨some "AWS::CDK::Metadata"⟩, none, [],
          ResourceImpact.NO_CHANGE⟩)]
      = ⟨0, 0, 0, []⟩ := by decide

/-- C1 (amended): for every resource difference whose resolved
resourceType is in allowedDestroyTypes and which is not skipped by the
metadata or function noise rules, the classifier adds no entry to
destructiveChanges, regardless of its changeImpact or whether it is a
removal, and the resource is counted in exactly one of the
created, updated and removed totals. -/
theorem c1_allowlisted_suppressed_still_counted
    (allowed : List String) (tid lid t : String) (c : ResourceDifference)
    (acc : ChangeDetails)
    (ht : c.resourceType = some t)
    (hmem : allowed.contains t = true)
    (hmeta : t ≠ "AWS::CDK::Metadata")
    (hlam : ¬(t = "AWS::Lambda::Function" ∧ lambdaArtifactOnly c = true)) :
    (evalStep allowed tid lid c acc).destructiveChanges = acc.destructiveChanges
    ∧ (evalStep allowed tid lid c acc
          = { acc with updatedResources := acc.updatedResources + 1 }
      ∨ evalStep allowed tid lid c acc
          = { acc with removedResources := acc.removedResources + 1 }
      ∨ evalStep allowed tid lid c acc
          = { acc with createdResources := acc.createdResources + 1 }) := by
  have h1 : ¬(c.resourceType = some "AWS::CDK::Metadata") := by
    rw [ht]
    intro hc
    exact hmeta (Option.some.inj hc)
  have h2 : ¬(c.resourceType = some "AWS::Lambda::Function"
      ∧ lambdaArtifactOnly c = true) := by
    intro hc
    rcases hc with ⟨ha, hb⟩
    rw [ht] at ha
    exact hlam ⟨Option.some.inj ha, hb⟩
  have h3 : allowedTypeTest allowed c = true := by
    unfold allowedTypeTest
    rw [ht]
    exact hmem
  have hstep : evalStep allowed tid lid c acc = countStep c acc := by
    unfold evalStep
    rw [if_neg h1, if_neg h2]
    simp only [h3, if_true]
  rw [hstep]
  exact ⟨countStep_destructive c acc, countStep_one c acc⟩

/-- C1 witness: a removal of an allow-listed bucket adds nothing to the
destructive list. -/
theorem c1_witness :
    (evalStep ["AWS::S3::Bucket"] "S" "R"
        ⟨some ⟨some "AWS::S3::Bucket"⟩, none, [], ResourceImpact.NO_CHANGE⟩
        ⟨0, 0, 0, []⟩).destructiveChanges = [] :=
  (c1_allowlisted_suppressed_still_counted ["AWS::S3::Bucket"] "S" "R"
    "AWS::S3::Bucket"
    ⟨some ⟨some "AWS::S3::Bucket"⟩, none, [], ResourceImpact.NO_CHANGE⟩
    ⟨0, 0, 0, []⟩ rfl (by decide) (by decide) (by decide)).left

/-! ## C2 -/

/-- C2: for every removal difference that is not skipped by the metadata
or function noise rules and whose resolved type is not allow-listed, the
classifier records exactly one destructive entry for it, with impact
exactly WILL_DESTROY, no matter what nominal changeImpact the diff engine
reports. -/
theorem c2_removal_destructive_will_destroy
    (allowed : List String) (tid lid : String) (c : ResourceDifference)
    (acc : ChangeDetails)
    (hrem : c.isRemoval = true)
    (hmeta : ¬(c.resourceType = some "AWS::CDK::Metadata"))
    (hlam : ¬(c.resourceType = some "AWS::Lambda::Function"
        ∧ lambdaArtifactOnly c = true))
    (hallow : allowedTypeTest allowed c = false) :
    (evalStep allowed tid lid c acc).destructiveChanges
      = acc.destructiveChanges ++ [⟨lid, tid, ResourceImpact.WILL_DESTROY⟩] := by
  unfold evalStep
  rw [if_neg hmeta, if_neg hlam]
  simp only [hallow, Bool.false_eq_true, if_false]
  unfold destructiveStep
  rw [if_pos hrem]
  simp only [countStep_destructive]

/-- C2 witness: an IAM role removal whose nominal impact is WILL_UPDATE
is still recorded with impact WILL_DESTROY. -/
theorem c2_witness :
    (evalStep [] "S" "R"
        ⟨some ⟨some "AWS::IAM::Role"⟩, none, [], ResourceImpact.WILL_UPDATE⟩
        ⟨0, 0, 0, []⟩).destructiveChanges
      = [⟨"R", "S", ResourceImpact.WILL_DESTROY⟩] :=
  c2_removal_destructive_will_destroy [] "S" "R"
    ⟨some ⟨some "AWS::IAM::Role"⟩, none, [], ResourceImpact.WILL_UPDATE⟩
    ⟨0, 0, 0, []⟩ (by decide) (by decide) (by decide) (by decide)

/-! ## C4 -/

/-- C4 counterexample: the claim asserts a Lambda function difference is
skipped exactly when it touches at most two properties, all within the
code-pointer and metadata properties.  A Lambda update touching the three
properties Metadata, Environment and Handler does not satisfy that
condition, so the claim requires it to be classified normally, yet the
classifier skips it entirely because its Metadata membership test alone
triggers the skip: all counts stay zero and nothing is recorded. -/
theorem c4_counterexample :
    ¬((["Metadata", "Environment", "Handler"] : List String).length ≤ 2
        ∧ ∀ k ∈ (["Metadata", "Environment", "Handler"] : List String),
            k = "Code" ∨ k = "Metadata")
    ∧ (⟨some ⟨some "AWS::Lambda::Function"⟩, some ⟨some "AWS::Lambda::Function"⟩,
        ["Metadata", "Environment", "Handler"],
        ResourceImpact.WILL_UPDATE⟩ : ResourceDifference).isUpdate = true
    ∧ evaluateDiff [] "S"
        [("Fn", ⟨some ⟨some "AWS::Lambda::Function"⟩,
          some ⟨some "AWS::Lambda::Function"⟩,
          ["Metadata", "Environment", "Handler"],
          ResourceImpact.WILL_UPDATE⟩)]
      = ⟨0, 0, 0, []⟩ := by decide

/-- C4 (amended): a difference on the function-like resource type is
skipped entirely exactly when its property diff either touches at most
two properties among which is the code-pointer property, or touches the
metadata property at all (regardless of how many other properties
change); otherwise it is classified normally. -/
theorem c4_lambda_noise_condition
    (allowed : List String) (tid lid : String) (c : ResourceDifference)
    (acc : ChangeDetails)
    (hty : c.resourceType = some "AWS::Lambda::Function") :
    evalStep allowed tid lid c acc =
      if (c.propertyUpdates.length ≤ 2 ∧ c.propertyUpdates.contains "Code" = true)
          ∨ c.propertyUpdates.contains "Metadata" = true then acc
      else
        (if allowedTypeTest allowed c = true then countStep c acc
         else destructiveStep tid lid c (countStep c acc)) := by
  have h1 : ¬(c.resourceType = some "AWS::CDK::Metadata") := by
    rw [hty]
    intro hc
    exact absurd (Option.some.inj hc) (by decide)
  unfold evalStep
  rw [if_neg h1]
  by_cases h : lambdaArtifactOnly c = true
  · rw [if_pos ⟨hty, h⟩, if_pos ((lambdaArtifactOnly_iff c).mp h)]
  · rw [if_neg (fun hc => h hc.right),
      if_neg (fun hc => h ((lambdaArtifactOnly_iff c).mpr hc))]

/-- C4 witness: a Lambda update touching only the code pointer is
skipped. -/
theorem c4_witness :
    evalStep [] "S" "Fn"
        ⟨some ⟨some "AWS::Lambda::Function"⟩, some ⟨some "AWS::Lambda::Function"⟩,
          ["Code"], ResourceImpact.WILL_UPDATE⟩
        ⟨0, 0, 0, []⟩
      = ⟨0, 0, 0, []⟩ := by
  have h := c4_lambda_noise_condition [] "S" "Fn"
    ⟨some ⟨some "AWS::Lambda::Function"⟩, some ⟨some "AWS::Lambda::Function"⟩,
      ["Code"], ResourceImpact.WILL_UPDATE⟩
    ⟨0, 0, 0, []⟩ rfl
  rw [h]
  decide

/-! ## C9 -/

/-- C9: a resource difference whose resource type cannot be resolved
(no type on either value) never matches the metadata or function noise
rules and never matches the allow-list: the classifier falls through to
normal counting followed by the destructive-impact check, using the
available flags and impact.  Totality of the embedding reflects that the
source classifier throws on no input. -/
theorem c9_unresolved_type_classified
    (allowed : List String) (tid lid : String) (c : ResourceDifference)
    (acc : ChangeDetails)
    (h : c.resourceType = none) :
    evalStep allowed tid lid c acc = destructiveStep tid lid c (countStep c acc) := by
  have h1 : ¬(c.resourceType = some "AWS::CDK::Metadata") := by
    rw [h]
    intro hc
    exact Option.noConfusion hc
  have h2 : ¬(c.resourceType = some "AWS::Lambda::Function"
      ∧ lambdaArtifactOnly c = true) := by
    intro hc
    rw [h] at hc
    exact Option.noConfusion hc.left
  have h3 : allowedTypeTest allowed c = false := by
    unfold allowedTypeTest
    rw [h]
  unfold evalStep
  rw [if_neg h1, if_neg h2]
  simp only [h3, Bool.false_eq_true, if_false]

/-- C9 witness: a malformed removal whose old value carries no type is
still counted as removed and recorded as destructive. -/
theorem c9_witness :
    evalStep [] "S" "R"
        ⟨some ⟨none⟩, none, [], ResourceImpact.WILL_UPDATE⟩ ⟨0, 0, 0, []⟩
      = destructiveStep "S" "R" ⟨some ⟨none⟩, none, [], ResourceImpact.WILL_UPDATE⟩
          (countStep ⟨some ⟨none⟩, none, [], ResourceImpact.WILL_UPDATE⟩ ⟨0, 0, 0, []⟩) :=
  c9_unresolved_type_classified [] "S" "R"
    ⟨some ⟨none⟩, none, [], ResourceImpact.WILL_UPDATE⟩ ⟨0, 0, 0, []⟩ rfl

/-! ## C8 -/

/-- C8: for a diff with zero resource differences the classifier returns
all counts zero with an empty destructive list, and the stack renderer
returns exactly the single no-changes line carrying the quiet emoji, with
no details block. -/
theorem c8_empty_diff_no_changes
    (fmt : TemplateDiff → String) (allowed : List String) (name : String)
    (d : TemplateDiff)
    (h : d.resources = []) :
    evaluateDiff allowed name d.resources = ⟨0, 0, 0, []⟩
    ∧ formatStackComment fmt name d (evaluateDiff allowed name d.resources)
        = ["No Changes for stack: " ++ name ++ " " ++ ":white_check_mark:"] := by
  have h1 : evaluateDiff allowed name d.resources = ⟨0, 0, 0, []⟩ := by
    rw [h]
    rfl
  refine ⟨h1, ?_⟩
  rw [h1]
  have hemp : d.isEmpty = true := by
    unfold TemplateDiff.isEmpty
    rw [h]
    rfl
  unfold formatStackComment
  rw [if_pos hemp]
  rfl

/-- C8 witness at a concrete empty diff. -/
theorem c8_witness :
    evaluateDiff [] "MyStack" (TemplateDiff.mk []).resources = ⟨0, 0, 0, []⟩
    ∧ formatStackComment (fun _ => "") "MyStack" (TemplateDiff.mk [])
        (evaluateDiff [] "MyStack" (TemplateDiff.mk []).resources)
      = ["No Changes for stack: " ++ "MyStack" ++ " " ++ ":white_check_mark:"] :=
  c8_empty_diff_no_changes (fun _ => "") [] "MyStack" (TemplateDiff.mk []) rfl

/-! ## C6 -/

/-- C6: in the publisher revision that suppresses quiet comments, a
comment identity whose total change count is zero leads to exactly one
deleteComment call when a previous comment is found by fingerprint, and
to no store call at all otherwise; createComment and updateComment are
never called for it. -/
theorem c6_zero_changes_deletes_previous
    (oracle : String → Option Nat) (hash : String) (comment : List String)
    (totalChanges : Nat)
    (h : totalChanges = 0) :
    commentStageTotal oracle hash comment totalChanges
      = (match oracle hash with
        | some id => [CommentAction.delete id]
        | none => []) := by
  subst h
  unfold commentStageTotal
  simp

/-- C6 witness: with an existing previous comment and zero total changes
the trace is exactly one delete. -/
theorem c6_witness :
    commentStageTotal (fun _ => some 7) "h" ["body"] 0 = [CommentAction.delete 7] :=
  c6_zero_changes_deletes_previous (fun _ => some 7) "h" ["body"] 0 rfl

/-! ## C10 -/

/-- C10: StackDiff.diffStack swallows every template-fetch error, not
just the stack-not-found case: the existing template stays empty and the
outcome is identical to diffing a never-deployed stack, for any external
diffTemplate collaborator and any parser. -/
theorem c10_fetch_error_like_never_deployed
    {T : Type} (emptyT : T) (parse : String → Option T)
    (dT : T → T → TemplateDiff) (allowed : List String) (stackName : String)
    (content : T) (e : FetchError) :
    diffStackFetch emptyT parse dT allowed stackName content (Except.error e)
      = diffStackFetch emptyT parse dT allowed stackName content
          (Except.error FetchError.stackNotFound)
    ∧ fetchedTemplate emptyT parse (Except.error e) = emptyT :=
  ⟨rfl, rfl⟩

/-! ## Helper lemmas about association-list updates and the stage fold -/

theorem updateAssoc_id {β : Type} (k : String) (m : List (String × β)) :
    updateAssoc k (fun v => v) m = m := by
  induction m with
  | nil => rfl
  | cons hd tl ih =>
    rcases hd with ⟨k2, v⟩
    unfold updateAssoc
    split_ifs with h
    · subst h
      rfl
    · rw [ih]

theorem updateAssoc_comp {β : Type} (k : String) (f g : β → β)
    (m : List (String × β)) :
    updateAssoc k f (updateAssoc k g m) = updateAssoc k (fun v => f (g v)) m := by
  induction m with
  | nil => rfl
  | cons hd tl ih =>
    rcases hd with ⟨k2, v⟩
    by_cases h : k2 = k
    · subst h
      simp [updateAssoc]
    · simp [updateAssoc, h, ih]

theorem updateAssoc_cons_ne {β : Type} (k k2 : String) (v : β) (f : β → β)
    (m : List (String × β)) (h : k2 ≠ k) :
    updateAssoc k f ((k2, v) :: m) = (k2, v) :: updateAssoc k f m := by
  simp [updateAssoc, h]

theorem foldl_updateAssoc {α β : Type} (k : String) (g : α → β → β)
    (l : List α) (m : List (String × β)) :
    l.foldl (fun m2 s => updateAssoc k (g s) m2) m
      = updateAssoc k (fun v => l.foldl (fun v2 s => g s v2) v) m := by
  induction l generalizing m with
  | nil => simp [List.foldl, updateAssoc_id]
  | cons x xs ih =>
    simp only [List.foldl]
    rw [ih, updateAssoc_comp]

theorem foldl_updateAssoc_cons {α β : Type} (key : α → String) (g : α → β → β)
    (l : List α) (hd : String × β) (m : List (String × β))
    (h : ∀ s ∈ l, key s ≠ hd.1) :
    l.foldl (fun m2 s => updateAssoc (key s) (g s) m2) (hd :: m)
      = hd :: l.foldl (fun m2 s => updateAssoc (key s) (g s) m2) m := by
  induction l generalizing m with
  | nil => rfl
  | cons x xs ih =>
    simp only [List.foldl]
    rcases hd with ⟨k2, v⟩
    rw [updateAssoc_cons_ne (key x) k2 v (g x) m (fun hc => h x (by simp) (by simpa using hc.symm))]
    exact ih (updateAssoc (key x) (g x) m) (fun s hs => h s (by simp [hs]))

theorem foldl_init_updates {α β : Type} (key : α → String) (i0 : α → β)
    (g : α → β → β) (l : List α) (hnd : (l.map key).Nodup) :
    l.foldl (fun m s => updateAssoc (key s) (g s) m)
        (l.map (fun s => (key s, i0 s)))
      = l.map (fun s => (key s, g s (i0 s))) := by
  induction l with
  | nil => rfl
  | cons x xs ih =>
    simp only [List.map, List.foldl]
    have hx : ∀ s ∈ xs, key s ≠ key x := by
      intro s hs hc
      simp only [List.map, List.nodup_cons] at hnd
      exact hnd.left (hc ▸ List.mem_map_of_mem key hs)
    rw [show updateAssoc (key x) (g x) ((key x, i0 x) :: xs.map (fun s => (key s, i0 s)))
        = (key x, g x (i0 x)) :: xs.map (fun s => (key s, i0 s)) by simp [updateAssoc]]
    rw [foldl_updateAssoc_cons key g xs (key x, g x (i0 x)) _ hx]
    rw [ih (by simp only [List.map, List.nodup_cons] at hnd; exact hnd.right)]

theorem foldl_record_split {α : Type}
    (u : α → List (String × List String) → List (String × List String))
    (dAdd : α → Nat → Nat) (l : List α) (sc : StageCommentV1) :
    l.foldl (fun sc2 s =>
        { sc2 with
            stackComments := u s sc2.stackComments
            destructiveChanges := dAdd s sc2.destructiveChanges }) sc
      = { sc with
            stackComments := l.foldl (fun mc s => u s mc) sc.stackComments
            destructiveChanges := l.foldl (fun n s => dAdd s n) sc.destructiveChanges } := by
  induction l generalizing sc with
  | nil => rfl
  | cons x xs ih =>
    simp only [List.foldl]
    rw [ih]

theorem foldl_counter {α : Type} (len : α → Nat) (cond : Bool) (l : List α)
    (n : Nat) :
    l.foldl (fun n2 s => if cond = true then n2 else n2 + len s) n
      = if cond = true then n else n + (l.map len).sum := by
  induction l generalizing n with
  | nil => cases cond <;> simp
  | cons x xs ih =>
    cases cond <;> simp_all [List.foldl] <;> omega

theorem lookup_map_self {β : Type} (F : StageInfo → β) (stages : List StageInfo)
    (st : StageInfo) (hmem : st ∈ stages)
    (hnd : (stages.map StageInfo.name).Nodup) :
    List.lookup st.name (stages.map (fun s => (s.name, F s))) = some (F st) := by
  induction stages with
  | nil => cases hmem
  | cons hd tl ih =>
    simp only [List.map, List.nodup_cons] at hnd
    rcases List.mem_cons.mp hmem with heq | htl
    · subst heq
      simp [List.lookup]
    · have hne : st.name ≠ hd.name := by
        intro hc
        exact hnd.left (hc ▸ List.mem_map_of_mem StageInfo.name htl)
      simp only [List.map, List.lookup, beq_false_of_ne hne]
      exact ih htl hnd.right


theorem processStages_closed (fmt : TemplateDiff → String) (allowed : List String)
    (title : Option String) (diffs : String → TemplateDiff)
    (stages : List StageInfo) (ignore : List String)
    (hst : (stages.map StageInfo.name).Nodup)
    (hsk : ∀ st ∈ stages, (st.stacks.map StackInfo.name).Nodup) :
    processStages fmt allowed title diffs stages ignore
      = stages.map (fun st =>
          (st.name,
            ({ stackComments := st.stacks.map (fun s =>
                (s.name, formatStackComment fmt s.name (diffs s.name)
                  (evaluateDiff allowed s.name (diffs s.name).resources)))
               title := title
               hash := stageHash title st
               destructiveChanges :=
                 if ignore.contains st.name = true then 0
                 else (st.stacks.map (fun s =>
                   (evaluateDiff allowed s.name (diffs s.name).resources).destructiveChanges.length)).sum }
              : StageCommentV1))) := by
  unfold processStages stageDiffInfoOf initStageComments
  rw [List.foldl_map]
  have hstep : (fun (m : List (String × StageCommentV1)) (st : StageInfo) =>
      ((⟨st.name, st.stacks.map (fun s => ⟨s.name, diffs s.name⟩)⟩ : StageDiffInfo)).stacks.foldl
        (fun m2 s => processStack fmt allowed ignore
          (⟨st.name, st.stacks.map (fun s => ⟨s.name, diffs s.name⟩)⟩ : StageDiffInfo).name s m2) m)
      = (fun m st =>
          updateAssoc st.name (fun sc =>
            (st.stacks.map (fun s => (⟨s.name, diffs s.name⟩ : StackDiffInfo))).foldl
              (fun sc2 s =>
                { sc2 with
                    stackComments := updateAssoc s.stackName
                      (fun cs => cs ++ (diffStackOne fmt allowed s).1) sc2.stackComments
                    destructiveChanges :=
                      if ignore.contains st.name then sc2.destructiveChanges
                      else sc2.destructiveChanges + (diffStackOne fmt allowed s).2 }) sc) m) := by
    funext m st
    rw [← foldl_updateAssoc]
    rfl
  rw [hstep]
  rw [foldl_init_updates StageInfo.name
    (fun st => ({ stackComments := st.stacks.map (fun s => (s.name, []))
                  title := title
                  hash := stageHash title st
                  destructiveChanges := 0 } : StageCommentV1))
    _ stages hst]
  apply List.map_congr_left
  intro st hmem
  rw [List.foldl_map]
  rw [foldl_record_split
      (fun (s : StackInfo) mc => updateAssoc s.name
        (fun cs => cs ++ (diffStackOne fmt allowed ⟨s.name, diffs s.name⟩).1) mc)
      (fun (s : StackInfo) n =>
        if ignore.contains st.name then n
        else n + (diffStackOne fmt allowed ⟨s.name, diffs s.name⟩).2)
      st.stacks]
  rw [foldl_init_updates StackInfo.name (fun _ => ([] : List String))
      (fun s cs => cs ++ (diffStackOne fmt allowed ⟨s.name, diffs s.name⟩).1)
      st.stacks (hsk st hmem)]
  rw [foldl_counter (fun s => (diffStackOne fmt allowed ⟨s.name, diffs s.name⟩).2)
      (ignore.contains st.name) st.stacks 0]
  simp only [List.nil_append, Nat.zero_add, diffStackOne]

/-! ## C3 -/

/-- C3: hasDestructiveChanges is true iff some stage accumulated a
positive destructive count, where stages named in the
ignoreDestructiveChanges list contribute nothing to their counter (their
counter stays zero, so they can never make hasDestructiveChanges true),
while each stage record still carries the full rendered per-stack
comments - including, for ignored stages, the destructive warning lines -
unchanged by the ignore list. -/
theorem c3_has_destructive_iff (fmt : TemplateDiff → String)
    (allowed : List String) (title : Option String)
    (diffs : String → TemplateDiff) (stages : List StageInfo)
    (ignore : List String)
    (hst : (stages.map StageInfo.name).Nodup)
    (hsk : ∀ st ∈ stages, (st.stacks.map StackInfo.name).Nodup) :
    (hasDestructiveChanges (processStages fmt allowed title diffs stages ignore) = true
      ↔ ∃ st ∈ stages, st.name ∉ ignore
          ∧ 0 < (st.stacks.map (fun s =>
              (evaluateDiff allowed s.name (diffs s.name).resources).destructiveChanges.length)).sum)
    ∧ (∀ st ∈ stages,
        List.lookup st.name (processStages fmt allowed title diffs stages ignore)
          = some
            ({ stackComments := st.stacks.map (fun s =>
                 (s.name, formatStackComment fmt s.name (diffs s.name)
                   (evaluateDiff allowed s.name (diffs s.name).resources)))
               title := title
               hash := stageHash title st
               destructiveChanges :=
                 if ignore.contains st.name = true then 0
                 else (st.stacks.map (fun s =>
                   (evaluateDiff allowed s.name (diffs s.name).resources).destructiveChanges.length)).sum }
              : StageCommentV1))
    ∧ (∀ st ∈ stages, st.name ∈ ignore → ∀ s ∈ st.stacks,
        (evaluateDiff allowed s.name (diffs s.name).resources).destructiveChanges.length ≠ 0 →
        (diffs s.name).isEmpty = false →
        "> [!WARNING]\n> ***Destructive Changes*** :bangbang:"
          ∈ formatStackComment fmt s.name (diffs s.name)
              (evaluateDiff allowed s.name (diffs s.name).resources)) := by
  rw [processStages_closed fmt allowed title diffs stages ignore hst hsk]
  refine ⟨?_, ?_, ?_⟩
  · unfold hasDestructiveChanges
    simp only [List.any_eq_true, List.mem_map, exists_exists_and_eq_and,
      decide_eq_true_eq]
    refine exists_congr (fun st => and_congr_right (fun hmem => ?_))
    by_cases hc : ignore.contains st.name = true
    · have hmm : st.name ∈ ignore := by simpa using hc
      simp [hc, hmm]
    · have hmemn : st.name ∉ ignore := fun hin => hc (by simpa using hin)
      simp [hc, hmemn, Nat.pos_iff_ne_zero]
  · intro st hmem
    exact lookup_map_self _ stages st hmem hst
  · intro st hmemst hig s hmems hlen hemp
    unfold formatStackComment
    rw [if_neg (by rw [hemp]; intro hc; exact Bool.noConfusion hc)]
    simp [hlen]

/-- C3 witness: a single stage holding one removal is reported, and the
rendered record is as characterized. -/
theorem c3_witness :
    hasDestructiveChanges (processStages (fun _ => "") [] none
      (fun _ => ⟨[("R", ⟨some ⟨some "AWS::IAM::Role"⟩, none, [],
        ResourceImpact.NO_CHANGE⟩)]⟩)
      [⟨"Prod", [⟨"A", "tpl"⟩]⟩] ["Other"]) = true := by
  have h := (c3_has_destructive_iff (fun _ => "") [] none
      (fun _ => ⟨[("R", ⟨some ⟨some "AWS::IAM::Role"⟩, none, [],
        ResourceImpact.NO_CHANGE⟩)]⟩)
      [⟨"Prod", [⟨"A", "tpl"⟩]⟩] ["Other"] (by decide) (by decide)).1
  exact h.mpr ⟨⟨"Prod", [⟨"A", "tpl"⟩]⟩, by decide, by decide, by decide⟩

/-! ## Helper lemmas about the publisher fallback -/

theorem commentStacksLoop_mem (oracle : String → Option Nat) (sn : String)
    (l : List (String × List String)) (as1 : List CommentAction)
    (h : commentStacksLoop oracle sn l = Except.ok as1) :
    ∀ r ∈ l, ∀ a, commentOneStack oracle sn r.1 r.2 = Except.ok a → a ∈ as1 := by
  induction l generalizing as1 with
  | nil => intro r hr; cases hr
  | cons hd tl ih =>
    intro r hr a ha
    rcases hd with ⟨sn2, cm⟩
    unfold commentStacksLoop at h
    rcases h1 : commentOneStack oracle sn sn2 cm with e1 | a1 <;> rw [h1] at h
    · exact absurd h (by simp)
    rcases h2 : commentStacksLoop oracle sn tl with e2 | as2 <;> rw [h2] at h
    · exact absurd h (by simp)
    have htr : as1 = a1 :: as2 := by
      cases h
      rfl
    subst htr
    rcases List.mem_cons.mp hr with heq | htl
    · subst heq
      rw [ha] at h1
      cases h1
      exact List.mem_cons_self _ _
    · exact List.mem_cons_of_mem _ (ih as2 h2 r htl a ha)

theorem commentStacksAll_mem (oracle : String → Option Nat)
    (l : List (String × StageCommentV2)) (as1 : List CommentAction)
    (h : commentStacksAll oracle l = Except.ok as1) :
    ∀ q ∈ l, ∀ r ∈ q.2.stackComments, ∀ a,
      commentOneStack oracle q.1 r.1 r.2 = Except.ok a → a ∈ as1 := by
  induction l generalizing as1 with
  | nil => intro q hq; cases hq
  | cons hd tl ih =>
    intro q hq r hr a ha
    rcases hd with ⟨sn, sc⟩
    unfold commentStacksAll at h
    rcases h1 : commentStacksLoop oracle sn sc.stackComments with e1 | b1 <;> rw [h1] at h
    · exact absurd h (by simp)
    rcases h2 : commentStacksAll oracle tl with e2 | b2 <;> rw [h2] at h
    · exact absurd h (by simp)
    have htr : as1 = b1 ++ b2 := by
      cases h
      rfl
    subst htr
    rcases List.mem_cons.mp hq with heq | htl
    · subst heq
      exact List.mem_append_left _ (commentStacksLoop_mem oracle sn sc.stackComments b1 h1 r hr a ha)
    · exact List.mem_append_right _ (ih b2 h2 q htl r hr a ha)

theorem commentStagesLoop_mem (oracle : String → Option Nat)
    (all l : List (String × StageCommentV2)) (trace : List CommentAction)
    (h : commentStagesLoop oracle all l = Except.ok trace) :
    ∀ p ∈ l,
      (¬ MAX_COMMENT_LENGTH < (joinNL (getCommentForStageV2 p.1 p.2)).length →
        commentStageAction oracle p.2.hash (getCommentForStageV2 p.1 p.2) ∈ trace)
      ∧ (MAX_COMMENT_LENGTH < (joinNL (getCommentForStageV2 p.1 p.2)).length →
        ∀ q ∈ all, ∀ r ∈ q.2.stackComments, ∀ a,
          commentOneStack oracle q.1 r.1 r.2 = Except.ok a → a ∈ trace) := by
  induction l generalizing trace with
  | nil => intro p hp; cases hp
  | cons hd tl ih =>
    intro p hp
    rcases hd with ⟨sn, sc⟩
    unfold commentStagesLoop at h
    by_cases hlen : MAX_COMMENT_LENGTH < (joinNL (getCommentForStageV2 sn sc)).length
    · rw [if_pos hlen] at h
      rcases h1 : commentStacksAll oracle all with e1 | b1 <;> rw [h1] at h
      · exact absurd h (by simp)
      rcases h2 : commentStagesLoop oracle all tl with e2 | b2 <;> rw [h2] at h
      · exact absurd h (by simp)
      have htr : trace = b1 ++ b2 := by
        cases h
        rfl
      subst htr
      rcases List.mem_cons.mp hp with heq | htl
      · subst heq
        refine ⟨fun hc => absurd hlen hc, fun _ q hq r hr a ha => ?_⟩
        exact List.mem_append_left _ (commentStacksAll_mem oracle all b1 h1 q hq r hr a ha)
      · have hih := ih b2 h2 p htl
        exact ⟨fun hc => List.mem_append_right _ (hih.1 hc),
          fun hc q hq r hr a ha => List.mem_append_right _ (hih.2 hc q hq r hr a ha)⟩
    · rw [if_neg hlen] at h
      rcases h2 : commentStagesLoop oracle all tl with e2 | b2 <;> rw [h2] at h
      · exact absurd h (by simp)
      have htr : trace = commentStageAction oracle sc.hash (getCommentForStageV2 sn sc) :: b2 := by
        cases h
        rfl
      subst htr
      rcases List.mem_cons.mp hp with heq | htl
      · subst heq
        exact ⟨fun _ => List.mem_cons_self _ _, fun hc => absurd hc hlen⟩
      · have hih := ih b2 h2 p htl
        exact ⟨fun hc => List.mem_cons_of_mem _ (hih.1 hc),
          fun hc q hq r hr a ha => List.mem_cons_of_mem _ (hih.2 hc q hq r hr a ha)⟩

/-! ## C5 -/

/-- C5 (amended): whenever the publisher run succeeds, every group whose
aggregate rendered comment fits within the GitHub limit has its single
aggregate comment action in the trace, and every group whose aggregate
comment exceeds the limit causes one per-stack comment action for every
stack of EVERY group (the fallback iterates the whole stageComments map),
not only for the stacks of the overflowing group. -/
theorem c5_oversized_fallback_all_groups
    (oracle : String → Option Nat) (all : List (String × StageCommentV2))
    (trace : List CommentAction)
    (h : commentStages oracle all = Except.ok trace) :
    ∀ p ∈ all,
      (¬ MAX_COMMENT_LENGTH < (joinNL (getCommentForStageV2 p.1 p.2)).length →
        commentStageAction oracle p.2.hash (getCommentForStageV2 p.1 p.2) ∈ trace)
      ∧ (MAX_COMMENT_LENGTH < (joinNL (getCommentForStageV2 p.1 p.2)).length →
        ∀ q ∈ all, ∀ r ∈ q.2.stackComments, ∀ a,
          commentOneStack oracle q.1 r.1 r.2 = Except.ok a → a ∈ trace) :=
  commentStagesLoop_mem oracle all all trace h

/-- C5 witness: a single small group gets exactly its aggregate comment. -/
theorem c5_witness :
    commentStageAction (fun _ => none) "hA"
        (getCommentForStageV2 "A" ⟨[("A1", ["x"])], "hA", 0⟩)
      ∈ [CommentAction.create "hA" ["### Diff for stage: A", "x"]] :=
  ((c5_oversized_fallback_all_groups (fun _ => none)
      [("A", ⟨[("A1", ["x"])], "hA", 0⟩)]
      [CommentAction.create "hA" ["### Diff for stage: A", "x"]]
      rfl)
    ("A", ⟨[("A1", ["x"])], "hA", 0⟩) (by decide)).1 (by decide)

/-- Definitional unfolding of commentStacksLoop on a cons cell. -/
theorem commentStacksLoop_cons (oracle : String → Option Nat) (sn stackName : String)
    (comment : List String) (rest : List (String × List String)) :
    commentStacksLoop oracle sn ((stackName, comment) :: rest)
      = (match commentOneStack oracle sn stackName comment with
        | Except.error e => Except.error e
        | Except.ok a =>
          match commentStacksLoop oracle sn rest with
          | Except.error e => Except.error e
          | Except.ok as2 => Except.ok (a :: as2)) := rfl

/-- Definitional unfolding of commentStacksAll on a cons cell, with the
stage record given fieldwise. -/
theorem commentStacksAll_cons (oracle : String → Option Nat) (sn : String)
    (scs : List (String × List String)) (h : String) (d : Nat)
    (rest : List (String × StageCommentV2)) :
    commentStacksAll oracle ((sn, ⟨scs, h, d⟩) :: rest)
      = (match commentStacksLoop oracle sn scs with
        | Except.error e => Except.error e
        | Except.ok as1 =>
          match commentStacksAll oracle rest with
          | Except.error e => Except.error e
          | Except.ok as2 => Except.ok (as1 ++ as2)) := rfl

/-- Definitional unfolding of commentStagesLoop on a cons cell, with the
stage record given fieldwise. -/
theorem commentStagesLoop_cons (oracle : String → Option Nat)
    (all : List (String × StageCommentV2)) (sn : String)
    (scs : List (String × List String)) (h : String) (d : Nat)
    (rest : List (String × StageCommentV2)) :
    commentStagesLoop oracle all ((sn, (⟨scs, h, d⟩ : StageCommentV2)) :: rest)
      = (match (if MAX_COMMENT_LENGTH
              < (joinNL (getCommentForStageV2 sn ⟨scs, h, d⟩)).length then
              commentStacksAll oracle all
            else
              Except.ok [commentStageAction oracle h
                (getCommentForStageV2 sn ⟨scs, h, d⟩)]) with
        | Except.error e => Except.error e
        | Except.ok as1 =>
          match commentStagesLoop oracle all rest with
          | Except.error e => Except.error e
          | Except.ok as2 => Except.ok (as1 ++ as2)) := rfl

/-- C5 counterexample: the claim asserts that when a group overflows the
publisher publishes one comment per unit OF THAT GROUP instead of the
aggregate.  With group A overflowing (two 40000-character stack comments)
and group B small, the fallback iterates the whole map: the trace
contains a per-stack comment for the stack B1 of the non-overflowing
group B (third action) in addition to the aggregate comment of B (fourth
action). -/
theorem c5_counterexample :
    MAX_COMMENT_LENGTH
        < (joinNL (getCommentForStageV2 "A"
            ⟨[("A1", [String.mk (List.replicate 40000 'a')]),
              ("A2", [String.mk (List.replicate 40000 'a')])], "hA", 0⟩)).length
    ∧ ¬ MAX_COMMENT_LENGTH
        < (joinNL (getCommentForStageV2 "B" ⟨[("B1", ["hello"])], "hB", 0⟩)).length
    ∧ commentStages (fun _ => none)
        [("A", ⟨[("A1", [String.mk (List.replicate 40000 'a')]),
                 ("A2", [String.mk (List.replicate 40000 'a')])], "hA", 0⟩),
         ("B", ⟨[("B1", ["hello"])], "hB", 0⟩)]
      = Except.ok
        [CommentAction.create (md5Hash (stackHashJson "A" "A1"))
            ["### Diff for stack: A / A1", String.mk (List.replicate 40000 'a')],
         CommentAction.create (md5Hash (stackHashJson "A" "A2"))
            ["### Diff for stack: A / A2", String.mk (List.replicate 40000 'a')],
         CommentAction.create (md5Hash (stackHashJson "B" "B1"))
            ["### Diff for stack: B / B1", "hello"],
         CommentAction.create "hB" ["### Diff for stage: B", "hello"]] := by
  have hbig : (String.mk (List.replicate 40000 'a')).length = 40000 := by
    show (List.replicate 40000 'a').length = 40000
    rw [List.length_replicate]
  have hA : MAX_COMMENT_LENGTH
      < (joinNL (getCommentForStageV2 "A"
          ⟨[("A1", [String.mk (List.replicate 40000 'a')]),
            ("A2", [String.mk (List.replicate 40000 'a')])], "hA", 0⟩)).length := by
    show MAX_COMMENT_LENGTH
      < ("### Diff for stage: A" ++ "\n" ++ String.mk (List.replicate 40000 'a')
          ++ "\n" ++ String.mk (List.replicate 40000 'a')).length
    simp only [String.length_append, hbig]
    decide
  have hB : ¬ MAX_COMMENT_LENGTH
      < (joinNL (getCommentForStageV2 "B" ⟨[("B1", ["hello"])], "hB", 0⟩)).length := by
    decide
  have hA1len : ¬ MAX_COMMENT_LENGTH
      < (joinNL (getCommentForStackV2 "A" "A1"
          [String.mk (List.replicate 40000 'a')])).length := by
    show ¬ MAX_COMMENT_LENGTH
      < ("### Diff for stack: A / A1" ++ "\n" ++ String.mk (List.replicate 40000 'a')).length
    simp only [String.length_append, hbig]
    decide
  have hA2len : ¬ MAX_COMMENT_LENGTH
      < (joinNL (getCommentForStackV2 "A" "A2"
          [String.mk (List.replicate 40000 'a')])).length := by
    show ¬ MAX_COMMENT_LENGTH
      < ("### Diff for stack: A / A2" ++ "\n" ++ String.mk (List.replicate 40000 'a')).length
    simp only [String.length_append, hbig]
    decide
  have hA1 : commentOneStack (fun _ => none) "A" "A1"
      [String.mk (List.replicate 40000 'a')]
      = Except.ok (CommentAction.create (md5Hash (stackHashJson "A" "A1"))
          ["### Diff for stack: A / A1", String.mk (List.replicate 40000 'a')]) := by
    unfold commentOneStack
    rw [if_neg hA1len]
    rfl
  have hA2 : commentOneStack (fun _ => none) "A" "A2"
      [String.mk (List.replicate 40000 'a')]
      = Except.ok (CommentAction.create (md5Hash (stackHashJson "A" "A2"))
          ["### Diff for stack: A / A2", String.mk (List.replicate 40000 'a')]) := by
    unfold commentOneStack
    rw [if_neg hA2len]
    rfl
  have hloopA2 : commentStacksLoop (fun _ => none) "A"
      [("A2", [String.mk (List.replicate 40000 'a')])]
      = Except.ok [CommentAction.create (md5Hash (stackHashJson "A" "A2"))
          ["### Diff for stack: A / A2", String.mk (List.replicate 40000 'a')]] := by
    rw [commentStacksLoop_cons, hA2]
    rfl
  have hloopA : commentStacksLoop (fun _ => none) "A"
      [("A1", [String.mk (List.replicate 40000 'a')]),
       ("A2", [String.mk (List.replicate 40000 'a')])]
      = Except.ok [CommentAction.create (md5Hash (stackHashJson "A" "A1"))
            ["### Diff for stack: A / A1", String.mk (List.replicate 40000 'a')],
          CommentAction.create (md5Hash (stackHashJson "A" "A2"))
            ["### Diff for stack: A / A2", String.mk (List.replicate 40000 'a')]] := by
    rw [commentStacksLoop_cons, hA1, hloopA2]
  have hstacks : commentStacksAll (fun _ => none)
      [("A", ⟨[("A1", [String.mk (List.replicate 40000 'a')]),
               ("A2", [String.mk (List.replicate 40000 'a')])], "hA", 0⟩),
       ("B", ⟨[("B1", ["hello"])], "hB", 0⟩)]
      = Except.ok
        [CommentAction.create (md5Hash (stackHashJson "A" "A1"))
            ["### Diff for stack: A / A1", String.mk (List.replicate 40000 'a')],
         CommentAction.create (md5Hash (stackHashJson "A" "A2"))
            ["### Diff for stack: A / A2", String.mk (List.replicate 40000 'a')],
         CommentAction.create (md5Hash (stackHashJson "B" "B1"))
            ["### Diff for stack: B / B1", "hello"]] := by
    have hrest : commentStacksAll (fun _ => none)
        [("B", ⟨[("B1", ["hello"])], "hB", 0⟩)]
        = Except.ok [CommentAction.create (md5Hash (stackHashJson "B" "B1"))
            ["### Diff for stack: B / B1", "hello"]] := by
      rw [commentStacksAll_cons]
      rfl
    rw [commentStacksAll_cons, hloopA, hrest]
    rfl
  have hloopStageB : commentStagesLoop (fun _ => none)
      [("A", ⟨[("A1", [String.mk (List.replicate 40000 'a')]),
               ("A2", [String.mk (List.replicate 40000 'a')])], "hA", 0⟩),
       ("B", ⟨[("B1", ["hello"])], "hB", 0⟩)]
      [("B", ⟨[("B1", ["hello"])], "hB", 0⟩)]
      = Except.ok [CommentAction.create "hB" ["### Diff for stage: B", "hello"]] := by
    rw [commentStagesLoop_cons, if_neg hB]
    rfl
  refine ⟨hA, hB, ?_⟩
  unfold commentStages
  rw [commentStagesLoop_cons, if_pos hA, hstacks, hloopStageB]
  rfl

/-! ## Helper lemmas about the JSON escape used by the fingerprint -/

theorem hexDigitChar_inj :
    ∀ m, m < 16 → ∀ n, n < 16 → hexDigitChar m = hexDigitChar n → m = n := by
  decide

theorem char_toNat_inj (c d : Char) (h : c.toNat = d.toNat) : c = d := by
  rw [← Char.ofNat_toNat c, ← Char.ofNat_toNat d, h]

theorem jsonEscapeChar_head (c : Char) :
    ∃ d t, jsonEscapeChar c = d :: t ∧ d ≠ '"' := by
  unfold jsonEscapeChar
  split_ifs with h1 h2 h3 h4 h5 h6 h7 h8
  all_goals first
    | exact ⟨'\\', _, rfl, by decide⟩
    | exact ⟨c, [], rfl, h1⟩

theorem jsonEscapeChar_prefix (c d : Char) (u v : List Char)
    (h : jsonEscapeChar c ++ u = jsonEscapeChar d ++ v) : c = d ∧ u = v := by
  unfold jsonEscapeChar at h
  split_ifs at h <;> simp_all
  all_goals try exact absurd h.1.symm (by assumption)
  obtain ⟨hh, hl, hr⟩ := h
  have e1 := hexDigitChar_inj _ (by omega) _ (by omega) hh
  have e2 := hexDigitChar_inj _ (by omega) _ (by omega) hl
  exact char_toNat_inj c d (by omega)

theorem jsonEscape_extract : ∀ (a b x y : List Char),
    jsonEscape a ++ '"' :: x = jsonEscape b ++ '"' :: y → a = b ∧ x = y := by
  intro a
  induction a with
  | nil =>
    intro b x y h
    cases b with
    | nil => simpa [jsonEscape] using h
    | cons d ds =>
      obtain ⟨e, t, het, hne⟩ := jsonEscapeChar_head d
      simp only [jsonEscape, List.flatMap_nil, List.flatMap_cons, List.nil_append,
        List.append_assoc, het, List.cons_append] at h
      exact absurd (List.head_eq_of_cons_eq h).symm hne
  | cons c cs ih =>
    intro b x y h
    cases b with
    | nil =>
      obtain ⟨e, t, het, hne⟩ := jsonEscapeChar_head c
      simp only [jsonEscape, List.flatMap_nil, List.flatMap_cons, List.nil_append,
        List.append_assoc, het, List.cons_append] at h
      exact absurd (List.head_eq_of_cons_eq h) hne
    | cons d ds =>
      simp only [jsonEscape, List.flatMap_cons, List.append_assoc] at h
      obtain ⟨hcd, hrest⟩ := jsonEscapeChar_prefix c d _ _ h
      obtain ⟨hcs, hxy⟩ := ih ds x y hrest
      exact ⟨by rw [hcd, hcs], hxy⟩

theorem string_mk_data (l : List Char) : (String.mk l).data = l := rfl

theorem jsonStacksArray_single (x : String) :
    (jsonStacksArray [x]).data
      = '\x7b' :: '"' :: 'n' :: 'a' :: 'm' :: 'e' :: '"' :: ':' :: '"' ::
        (jsonEscape x.data ++ '"' :: '\x7d' :: []) := by
  simp [jsonStacksArray, jsonString, String.data_append, string_mk_data,
    show ("\x7b\"name\":" : String).data = ['\x7b', '"', 'n', 'a', 'm', 'e', '"', ':'] from rfl,
    show ("\"" : String).data = ['"'] from rfl,
    show ("\x7d" : String).data = ['\x7d'] from rfl, List.append_assoc]

theorem jsonStacksArray_cons2 (x y : String) (ys : List String) :
    (jsonStacksArray (x :: y :: ys)).data
      = '\x7b' :: '"' :: 'n' :: 'a' :: 'm' :: 'e' :: '"' :: ':' :: '"' ::
        (jsonEscape x.data ++ '"' :: '\x7d' :: ',' :: (jsonStacksArray (y :: ys)).data) := by
  simp [jsonStacksArray, jsonString, String.data_append, string_mk_data,
    show ("\x7b\"name\":" : String).data = ['\x7b', '"', 'n', 'a', 'm', 'e', '"', ':'] from rfl,
    show ("\"" : String).data = ['"'] from rfl,
    show ("\x7d" : String).data = ['\x7d'] from rfl,
    show ("," : String).data = [','] from rfl, List.append_assoc]

theorem jsonStacksArray_inj : ∀ (ns1 ns2 : List String) (r1 r2 : List Char),
    (jsonStacksArray ns1).data ++ ']' :: r1
      = (jsonStacksArray ns2).data ++ ']' :: r2 →
    ns1 = ns2 ∧ r1 = r2 := by
  intro ns1
  induction ns1 with
  | nil =>
    intro ns2 r1 r2 h
    cases ns2 with
    | nil => simpa [jsonStacksArray] using h
    | cons y ys =>
      cases ys with
      | nil =>
        rw [show (jsonStacksArray []).data = [] from rfl, jsonStacksArray_single] at h
        simp at h
      | cons y2 ys2 =>
        rw [show (jsonStacksArray []).data = [] from rfl, jsonStacksArray_cons2] at h
        simp at h
  | cons x xs ih =>
    intro ns2 r1 r2 h
    cases ns2 with
    | nil =>
      cases xs with
      | nil =>
        rw [show (jsonStacksArray []).data = [] from rfl, jsonStacksArray_single] at h
        simp at h
      | cons x2 xs2 =>
        rw [show (jsonStacksArray []).data = [] from rfl, jsonStacksArray_cons2] at h
        simp at h
    | cons y ys =>
      cases xs with
      | nil =>
        cases ys with
        | nil =>
          rw [jsonStacksArray_single, jsonStacksArray_single] at h
          simp only [List.cons_append, List.append_assoc, List.cons.injEq, true_and] at h
          obtain ⟨ha, hb⟩ := jsonEscape_extract _ _ _ _ h
          simp only [List.cons.injEq, List.nil_append, true_and] at hb
          exact ⟨by rw [String.ext ha], hb⟩
        | cons y2 ys2 =>
          rw [jsonStacksArray_single, jsonStacksArray_cons2] at h
          simp only [List.cons_append, List.append_assoc, List.cons.injEq, true_and] at h
          obtain ⟨ha, hb⟩ := jsonEscape_extract _ _ _ _ h
          simp at hb
      | cons x2 xs2 =>
        cases ys with
        | nil =>
          rw [jsonStacksArray_cons2, jsonStacksArray_single] at h
          simp only [List.cons_append, List.append_assoc, List.cons.injEq, true_and] at h
          obtain ⟨ha, hb⟩ := jsonEscape_extract _ _ _ _ h
          simp at hb
        | cons y2 ys2 =>
          rw [jsonStacksArray_cons2, jsonStacksArray_cons2] at h
          simp only [List.cons_append, List.append_assoc, List.cons.injEq, true_and] at h
          obtain ⟨ha, hb⟩ := jsonEscape_extract _ _ _ _ h
          simp only [List.cons.injEq, true_and] at hb
          obtain ⟨hxs, hr⟩ := ih (y2 :: ys2) r1 r2 hb
          exact ⟨by rw [String.ext ha, hxs], hr⟩

theorem stageHashJson_inj (n1 n2 : String) (t1 t2 : Option String)
    (ns1 ns2 : List String)
    (h : stageHashJson n1 t1 ns1 = stageHashJson n2 t2 ns2) :
    n1 = n2 ∧ t1 = t2 ∧ ns1 = ns2 := by
  have hd := congrArg String.data h
  cases t1 with
  | none =>
    cases t2 with
    | none =>
      simp only [stageHashJson, jsonString, String.data_append, string_mk_data,
        show ("\x7b\"stageName\":" : String).data
          = ['\x7b', '"', 's', 't', 'a', 'g', 'e', 'N', 'a', 'm', 'e', '"', ':'] from rfl,
        show (",\"stacks\":[" : String).data
          = [',', '"', 's', 't', 'a', 'c', 'k', 's', '"', ':', '['] from rfl,
        show ("]\x7d" : String).data = [']', '\x7d'] from rfl,
        show ("\"" : String).data = ['"'] from rfl,
        show ("" : String).data = [] from rfl,
        List.append_assoc, List.cons_append, List.nil_append,
        List.cons.injEq, true_and] at hd
      obtain ⟨ha, hb⟩ := jsonEscape_extract _ _ _ _ hd
      simp only [List.cons.injEq, true_and] at hb
      obtain ⟨hns, _⟩ := jsonStacksArray_inj _ _ _ _ hb
      exact ⟨String.ext ha, rfl, hns⟩
    | some t2v =>
      simp only [stageHashJson, jsonString, String.data_append, string_mk_data,
        show ("\x7b\"stageName\":" : String).data
          = ['\x7b', '"', 's', 't', 'a', 'g', 'e', 'N', 'a', 'm', 'e', '"', ':'] from rfl,
        show (",\"stacks\":[" : String).data
          = [',', '"', 's', 't', 'a', 'c', 'k', 's', '"', ':', '['] from rfl,
        show (",\"title\":" : String).data
          = [',', '"', 't', 'i', 't', 'l', 'e', '"', ':'] from rfl,
        show ("]\x7d" : String).data = [']', '\x7d'] from rfl,
        show ("\"" : String).data = ['"'] from rfl,
        show ("" : String).data = [] from rfl,
        List.append_assoc, List.cons_append, List.nil_append,
        List.cons.injEq, true_and] at hd
      obtain ⟨ha, hb⟩ := jsonEscape_extract _ _ _ _ hd
      simp at hb
  | some t1v =>
    cases t2 with
    | none =>
      simp only [stageHashJson, jsonString, String.data_append, string_mk_data,
        show ("\x7b\"stageName\":" : String).data
          = ['\x7b', '"', 's', 't', 'a', 'g', 'e', 'N', 'a', 'm', 'e', '"', ':'] from rfl,
        show (",\"stacks\":[" : String).data
          = [',', '"', 's', 't', 'a', 'c', 'k', 's', '"', ':', '['] from rfl,
        show (",\"title\":" : String).data
          = [',', '"', 't', 'i', 't', 'l', 'e', '"', ':'] from rfl,
        show ("]\x7d" : String).data = [']', '\x7d'] from rfl,
        show ("\"" : String).data = ['"'] from rfl,
        show ("" : String).data = [] from rfl,
        List.append_assoc, List.cons_append, List.nil_append,
        List.cons.injEq, true_and] at hd
      obtain ⟨ha, hb⟩ := jsonEscape_extract _ _ _ _ hd
      simp at hb
    | some t2v =>
      simp only [stageHashJson, jsonString, String.data_append, string_mk_data,
        show ("\x7b\"stageName\":" : String).data
          = ['\x7b', '"', 's', 't', 'a', 'g', 'e', 'N', 'a', 'm', 'e', '"', ':'] from rfl,
        show (",\"stacks\":[" : String).data
          = [',', '"', 's', 't', 'a', 'c', 'k', 's', '"', ':', '['] from rfl,
        show (",\"title\":" : String).data
          = [',', '"', 't', 'i', 't', 'l', 'e', '"', ':'] from rfl,
        show ("]\x7d" : String).data = [']', '\x7d'] from rfl,
        show ("\"" : String).data = ['"'] from rfl,
        List.append_assoc, List.cons_append, List.nil_append,
        List.cons.injEq, true_and] at hd
      obtain ⟨ha, hb⟩ := jsonEscape_extract _ _ _ _ hd
      simp only [List.cons.injEq, true_and] at hb
      obtain ⟨hta, htb⟩ := jsonEscape_extract _ _ _ _ hb
      simp only [List.cons.injEq, true_and] at htb
      obtain ⟨hns, _⟩ := jsonStacksArray_inj _ _ _ _ htb
      exact ⟨String.ext ha, by rw [String.ext hta], hns⟩

/-! ## C7 -/

/-- C7: the per-stage fingerprint is the MD5 of a topology document built
only from the stage name, the optional configured title and the list of
member stack names: stages with equal names and stack-name lists receive
identical fingerprints no matter how their stack contents differ, and the
hashed document is injective in the stage name, the title and the
stack-name list, so distinct topologies or titles hash distinct
documents (the fingerprints themselves differ unless MD5 collides). -/
theorem c7_fingerprint_topology :
    (∀ (title : Option String) (st1 st2 : StageInfo),
      st1.name = st2.name →
      st1.stacks.map StackInfo.name = st2.stacks.map StackInfo.name →
      stageHash title st1 = stageHash title st2)
    ∧ (∀ (n1 n2 : String) (t1 t2 : Option String) (ns1 ns2 : List String),
        stageHashJson n1 t1 ns1 = stageHashJson n2 t2 ns2 →
        n1 = n2 ∧ t1 = t2 ∧ ns1 = ns2) := by
  constructor
  · intro title st1 st2 hn hs
    unfold stageHash stageFingerprint
    rw [hn, hs]
  · exact fun n1 n2 t1 t2 ns1 ns2 h => stageHashJson_inj n1 n2 t1 t2 ns1 ns2 h

/-- C7 witness: two stages with the same topology but different template
contents receive the same fingerprint. -/
theorem c7_witness :
    stageHash none ⟨"Prod", [⟨"A", "template-v1"⟩]⟩
      = stageHash none ⟨"Prod", [⟨"A", "template-v2"⟩]⟩ :=
  (c7_fingerprint_topology).1 none ⟨"Prod", [⟨"A", "template-v1"⟩]⟩
    ⟨"Prod", [⟨"A", "template-v2"⟩]⟩ rfl rfl
